import Mathlib

/-!
Verification development for the ESP32 two-hop video relay
(`primary/src/main.cpp`, `secondary/secondary-cam/src/main.cpp`,
`secondary/secondary-NoCam/src/main.cpp`).

The wire protocol, feed ingestion loop, frame cache, HTTP multipart
streaming responder, and the peer slot manager are shallowly embedded as
executable Lean functions over byte lists (`List Nat`, each entry a byte
value mod 256, mirroring the C `uint8_t` buffers).  Heap activity (the
`malloc`/`free` pairs around frame buffers) is made explicit so that
claims about released storage are provable rather than vacuous.  The
mutex-protected interaction between the feed writer and the streaming
readers is modelled as a small-step interleaving semantics.
-/

namespace Relay

/-- Frame length ceiling enforced by the decoder: `5*1024*1024` bytes
(`handleFeedClient`, `len > 5*1024*1024`). -/
def MAX_FRAME : Nat := 5 * 1024 * 1024

/-! ## Framed transport codec -/

/-- The 4-byte big-endian header written by `sendFrameToPrimary`:
`hdr[0] = (len >> 24) & 0xFF; ... hdr[3] = len & 0xFF`. -/
def encodeHdr (len : Nat) : List Nat :=
  [len >>> 24 % 256, len >>> 16 % 256, len >>> 8 % 256, len % 256]

/-- `sendFrameToPrimary`: the wire bytes are the 4-byte big-endian length
followed by the payload bytes. -/
def encode (data : List Nat) : List Nat :=
  encodeHdr data.length ++ data

/-- The header parse in `handleFeedClient`:
`((uint32_t)lenb[0] << 24) | ((uint32_t)lenb[1] << 16) | ((uint32_t)lenb[2] << 8) | (uint32_t)lenb[3]`.
The `% 256` models storage of each stream byte into the `uint8_t lenb[4]`
buffer. -/
def parseLen (b0 b1 b2 b3 : Nat) : Nat :=
  (b0 % 256) <<< 24 ||| (b1 % 256) <<< 16 ||| (b2 % 256) <<< 8 ||| (b3 % 256)

/-- The error exits of the per-frame read in `handleFeedClient`:
short header read (`got != 4`), bad length (`len == 0 || len > 5*1024*1024`),
`malloc` failure, and the stream closing mid-payload (`r != len`). -/
inductive FeedErr where
  | shortHeader
  | badLength
  | allocFail
  | shortPayload
deriving DecidableEq, Repr

/-- One iteration of the frame-read loop in `handleFeedClient`, as a pure
codec step: read 4 header bytes, parse the big-endian length, sanity-check
it, allocate (`allocOk` is the `malloc` oracle), then read exactly `len`
payload bytes.  Returns the decoded frame or the error, together with the
bytes of the stream not yet consumed. -/
def decodeNext (allocOk : Nat → Bool) (s : List Nat) :
    Except FeedErr (List Nat) × List Nat :=
  match s with
  | b0 :: b1 :: b2 :: b3 :: rest =>
    let len := parseLen b0 b1 b2 b3
    if len = 0 ∨ MAX_FRAME < len then (.error .badLength, rest)
    else if allocOk len = false then (.error .allocFail, rest)
    else if rest.length < len then (.error .shortPayload, rest.drop len)
    else (.ok (rest.take len), rest.drop len)
  | _ => (.error .shortHeader, [])

/-! ## Heap bookkeeping

Frame buffers live on the C heap (`malloc`/`free` in `handleFeedClient`
and `stream_handler`).  A heap is a list of `(address, contents)` pairs;
`mfree` models `free`, `lookupHeap` models dereferencing a buffer
pointer. -/

def mfree (h : List (Nat × List Nat)) (p : Nat) : List (Nat × List Nat) :=
  h.filter (fun e => e.1 ≠ p)

def lookupHeap (h : List (Nat × List Nat)) (p : Nat) : Option (List Nat) :=
  (h.find? (fun e => e.1 = p)).map (fun e => e.2)

/-! ## Frame cache

The relay's shared state: the file-scope `static uint8_t * latest_frame`
(modelled as an optional buffer address), `static size_t latest_len`, plus
the set of live heap buffers and a fresh-address counter for `malloc`. -/

structure FrameCache where
  live : List (Nat × List Nat)
  nextAddr : Nat
  latest_frame : Option Nat
  latest_len : Nat
deriving DecidableEq, Repr

/-- The state at boot: `latest_frame = NULL`, `latest_len = 0`, nothing
allocated. -/
def initCache : FrameCache := ⟨[], 0, none, 0⟩

/-- The observable part of the cache: live buffers, the latest-frame
pointer and the stored length (everything except the allocator's
fresh-address counter). -/
def cacheObs (st : FrameCache) : List (Nat × List Nat) × Option Nat × Nat :=
  (st.live, st.latest_frame, st.latest_len)

/-- The publish section of `handleFeedClient` (the
`xSemaphoreTake(frameMutex, pdMS_TO_TICKS(200))` block): on acquiring the
mutex, free the previous frame if any and install the new buffer `a` with
length `len`; on a lock timeout, free the new buffer and leave the cache
as it was. -/
def publish (lockOk : Bool) (st : FrameCache) (a : Nat) (len : Nat) : FrameCache :=
  if lockOk then
    { st with
      live := (match st.latest_frame with
               | some p => mfree st.live p
               | none => st.live),
      latest_frame := some a,
      latest_len := len }
  else
    { st with live := mfree st.live a }

/-- One iteration of the `while (c.connected())` loop of
`handleFeedClient` over the remaining stream bytes: read and parse the
header, sanity-check the length, `malloc` a buffer, read the payload into
it, then publish under the mutex.  Returns the new cache state, the
unconsumed stream, and whether the loop continues (`false` means the loop
`break`s and the connection is closed). -/
def ingestStep (lockOk : Bool) (allocOk : Nat → Bool) (st : FrameCache)
    (s : List Nat) : FrameCache × List Nat × Bool :=
  match s with
  | b0 :: b1 :: b2 :: b3 :: rest =>
    let len := parseLen b0 b1 b2 b3
    if len = 0 ∨ MAX_FRAME < len then (st, rest, false)
    else if allocOk len = false then (st, rest, false)
    else
      let a := st.nextAddr
      let st1 : FrameCache :=
        { st with live := st.live ++ [(a, rest.take len)], nextAddr := st.nextAddr + 1 }
      if rest.length < len then
        ({ st1 with live := mfree st1.live a }, rest.drop len, false)
      else
        (publish lockOk st1 a len, rest.drop len, true)
  | _ => (st, [], false)

/-- The fixed 4-byte payload `uint8_t payload[] = {0xDE, 0xAD, 0xBE, 0xEF}`
written raw (no length header) by the sensor-only secondary
(`secondary-NoCam`). -/
def noCamPayload : List Nat := [0xDE, 0xAD, 0xBE, 0xEF]

/-! ## HTTP streaming responder -/

/-- `PART_BOUNDARY` from the source. -/
def PART_BOUNDARY : String := "123456789000000000000987654321"

/-- `_STREAM_CONTENT_TYPE`: the `multipart/x-mixed-replace` content type
announced on `GET /stream`. -/
def STREAM_CONTENT_TYPE : String := "multipart/x-mixed-replace;boundary=" ++ PART_BOUNDARY

/-- `_STREAM_BOUNDARY`: the delimiter sent after each part. -/
def STREAM_BOUNDARY : String := "\r\n--" ++ PART_BOUNDARY ++ "\r\n"

/-- The part header produced by
`snprintf(part_buf, 64, _STREAM_PART, (unsigned)tmplen)` where
`_STREAM_PART` is `"Content-Type: image/jpeg\r\nContent-Length: %u\r\n\r\n"`.
(For any length the decoder admits, at most 7 decimal digits, the full
header is at most 54 characters, so the 64-byte `part_buf` never
truncates.) -/
def streamPartHdr (n : Nat) : String :=
  "Content-Type: image/jpeg\r\nContent-Length: " ++ toString n ++ "\r\n\r\n"

/-- ASCII bytes of a string (the relay sends header/boundary strings over
the same byte stream as the frame bytes). -/
def strBytes (s : String) : List Nat :=
  s.data.map (fun c => c.toNat)

/-- The snapshot taken at the top of the `stream_handler` loop: under the
mutex (1 s bounded wait, `lockOk`), if `latest_frame` is non-null and
`latest_len > 0`, `malloc` (`allocOk`) a private buffer and `memcpy`
`latest_len` bytes out of the cached buffer.  Any failure leaves
`tmpbuf == NULL`, reported as `none`. -/
def snapshot (lockOk allocOk : Bool) (st : FrameCache) : Option (List Nat) :=
  if lockOk then
    match st.latest_frame with
    | some p =>
      if st.latest_len > 0 then
        if allocOk then
          (lookupHeap st.live p).map (fun f => f.take st.latest_len)
        else none
      else none
    | none => none
  else none

/-- Outcome of one cycle of the `stream_handler` loop. -/
inductive CycleOut where
  | wait
  | part (bytes : List Nat)
deriving DecidableEq, Repr

/-- One cycle of the `while (true)` loop in `stream_handler`: take a
snapshot; with no snapshot, `vTaskDelay(50)` and retry (`wait`); otherwise
send the part header, the frame bytes, and the boundary. -/
def streamCycle (lockOk allocOk : Bool) (st : FrameCache) : CycleOut :=
  match snapshot lockOk allocOk st with
  | none => .wait
  | some f => .part (strBytes (streamPartHdr f.length) ++ f ++ strBytes STREAM_BOUNDARY)

/-! ## Well-formedness of the cache state -/

/-- Allocator soundness: every live buffer's address is below the fresh
counter (so a fresh `malloc` never collides with a live buffer). -/
def wf (st : FrameCache) : Prop :=
  ∀ e ∈ st.live, e.1 < st.nextAddr

/-- "At rest" shape of the cache between loop iterations: either nothing
was ever published (no live buffer, null pointer), or exactly one live
buffer, pointed to by `latest_frame`, with `latest_len` its size. -/
def atRest (st : FrameCache) : Prop :=
  (st.latest_frame = none ∧ st.live = []) ∨
  (∃ p g, st.latest_frame = some p ∧ st.live = [(p, g)] ∧ st.latest_len = g.length)

/-! ## Client slot manager

The peer slot table of the mesh fan-out mode.  This component is
described by the spec (section 4.4: `MAX_CLIENTS = 6`, first free-or-dead
slot wins, `None` on a full table) but its source file is not part of the
repository snapshot under verification, so it is modelled from the spec's
words. -/

/-- Modelled from the spec: the compile-time bound `MAX_CLIENTS` (6 in
the source). -/
def MAX_CLIENTS : Nat := 6

/-- Modelled from the spec: an accepted peer connection handle, exposing
only whether the underlying connection still reports connected. -/
structure PeerConn where
  id : Nat
  connected : Bool
deriving DecidableEq, Repr

/-- Modelled from the spec: a slot is reusable when its connection is
absent or no longer connected. -/
def slotFree : Option PeerConn → Bool
  | none => true
  | some c => !c.connected

/-- Modelled from the spec: `accept_if_pending` scans the fixed-size slot
table for the first slot whose connection is absent or dead, installs the
new connection there and returns its index; returns `none` (silently
dropping the connection) when the table is full. -/
def acceptIfPending : List (Option PeerConn) → PeerConn →
    Option Nat × List (Option PeerConn)
  | [], _ => (none, [])
  | s :: rest, c =>
    if slotFree s then (some 0, some c :: rest)
    else
      match acceptIfPending rest c with
      | (some i, rest') => (some (i + 1), s :: rest')
      | (none, rest') => (none, s :: rest')

/-- Modelled from the spec: the slot table at start, `MAX_CLIENTS` empty
slots. -/
def emptyTable : List (Option PeerConn) := List.replicate MAX_CLIENTS none

/-- Accept a sequence of incoming connections one after the other,
keeping the resulting table. -/
def acceptAll (t : List (Option PeerConn)) (cs : List PeerConn) :
    List (Option PeerConn) :=
  cs.foldl (fun t c => (acceptIfPending t c).2) t

/-! ## Interleaving semantics of publish vs. snapshot

One writer task (`handleFeedClient`, running on the Arduino `loop` task)
and any number of reader tasks (one `stream_handler` invocation per HTTP
viewer) share `latest_frame`/`latest_len` under `frameMutex`.  The
critical sections are broken into individual machine steps: the writer's
publish is free-old / store-pointer / store-length, a reader's snapshot
copies its private buffer one byte at a time.  The mutex is the single
`lock` cell; a task's critical-section steps do not re-check it (the code
holds it by construction), so mutual exclusion is a property of the
reachable states, not an assumption. -/

/-- Writer control state inside `handleFeedClient`'s publish section.
`a` is the address of the freshly filled frame buffer, `f` its bytes. -/
inductive WriterPC where
  | idle
  | gotLock (a : Nat) (f : List Nat)
  | freedOld (a : Nat) (f : List Nat)
  | setPtr (a : Nat) (f : List Nat)
deriving DecidableEq, Repr

/-- Reader control state inside `stream_handler`'s snapshot section:
after taking the mutex, `copying src n i buf` is the `memcpy` having
copied `i` of `n` bytes from the buffer at `src` into the private `buf`. -/
inductive ReaderPC where
  | idle
  | gotLock
  | copying (src n i : Nat) (buf : List Nat)
  | done (result : Option (List Nat))
deriving DecidableEq, Repr

/-- Shared state of the relay process: the mutex, the heap, the two
`latest_*` globals, the writer task, the reader tasks, and the ghost list
of all frames ever handed to the publish section. -/
structure MState where
  lock : Option Nat
  heap : List (Nat × List Nat)
  nextAddr : Nat
  latestPtr : Option Nat
  latestLen : Nat
  writer : WriterPC
  readers : Nat → ReaderPC
  published : List (List Nat)

/-- Reading byte `i` of the heap buffer at `p` (the `memcpy` source). -/
def heapByte (h : List (Nat × List Nat)) (p i : Nat) : Nat :=
  ((lookupHeap h p).getD []).getD i 0

/-- The process at boot: mutex free, heap empty, `latest_frame = NULL`,
`latest_len = 0`, every task idle, nothing published. -/
def initMState : MState :=
  ⟨none, [], 0, none, 0, .idle, fun _ => .idle, []⟩

/-- One machine step of the relay.  Writer steps mirror
`handleFeedClient`: acquire the mutex together with the preceding
`malloc`+payload read (`wAcquire`), or time out and free the new buffer
(`wAcquireFail`); then `free(latest_frame)` (`wFree`),
`latest_frame = buf` (`wSetPtr`), `latest_len = len` and release
(`wSetLen`).  Reader steps mirror `stream_handler`: acquire (`rAcquire`);
observe a null/empty frame and release empty-handed (`rSnapNone`); fail
the `malloc` of the private copy (`rSnapAllocFail`); start the `memcpy`
(`rStartCopy`); copy one byte (`rCopyByte`); finish and release
(`rFinish`). -/
inductive MStep : MState → MState → Prop where
  | wAcquire (s : MState) (f : List Nat)
      (hw : s.writer = .idle) (hl : s.lock = none) :
      MStep s { s with lock := some 0,
                       heap := s.heap ++ [(s.nextAddr, f)],
                       nextAddr := s.nextAddr + 1,
                       writer := .gotLock s.nextAddr f,
                       published := s.published ++ [f] }
  | wAcquireFail (s : MState) (f : List Nat) (hw : s.writer = .idle) :
      MStep s { s with heap := mfree (s.heap ++ [(s.nextAddr, f)]) s.nextAddr,
                       nextAddr := s.nextAddr + 1 }
  | wFree (s : MState) (a : Nat) (f : List Nat) (hw : s.writer = .gotLock a f) :
      MStep s { s with heap := (match s.latestPtr with
                                | some p => mfree s.heap p
                                | none => s.heap),
                       writer := .freedOld a f }
  | wSetPtr (s : MState) (a : Nat) (f : List Nat) (hw : s.writer = .freedOld a f) :
      MStep s { s with latestPtr := some a, writer := .setPtr a f }
  | wSetLen (s : MState) (a : Nat) (f : List Nat) (hw : s.writer = .setPtr a f) :
      MStep s { s with latestLen := f.length, lock := none, writer := .idle }
  | rAcquire (s : MState) (r : Nat)
      (hr : s.readers r = .idle) (hl : s.lock = none) :
      MStep s { s with lock := some (r + 1),
                       readers := Function.update s.readers r .gotLock }
  | rSnapNone (s : MState) (r : Nat)
      (hr : s.readers r = .gotLock)
      (hnone : s.latestPtr = none ∨ s.latestLen = 0) :
      MStep s { s with lock := none,
                       readers := Function.update s.readers r (.done none) }
  | rSnapAllocFail (s : MState) (r : Nat) (p : Nat)
      (hr : s.readers r = .gotLock)
      (hp : s.latestPtr = some p) (hlen : 0 < s.latestLen) :
      MStep s { s with lock := none,
                       readers := Function.update s.readers r (.done none) }
  | rStartCopy (s : MState) (r : Nat) (p : Nat)
      (hr : s.readers r = .gotLock)
      (hp : s.latestPtr = some p) (hlen : 0 < s.latestLen) :
      MStep s { s with readers := Function.update s.readers r
                        (.copying p s.latestLen 0 []) }
  | rCopyByte (s : MState) (r : Nat) (p n i : Nat) (buf : List Nat)
      (hr : s.readers r = .copying p n i buf) (hi : i < n) :
      MStep s { s with readers := Function.update s.readers r
                        (.copying p n (i + 1) (buf ++ [heapByte s.heap p i])) }
  | rFinish (s : MState) (r : Nat) (p n : Nat) (buf : List Nat)
      (hr : s.readers r = .copying p n n buf) :
      MStep s { s with lock := none,
                       readers := Function.update s.readers r (.done (some buf)) }

/-- Reachable relay states. -/
def Reach (s : MState) : Prop := Relation.ReflTransGen MStep initMState s

/-- The inductive invariant of the interleaving semantics.  `lockW`/
`lockR*`: a task inside its critical section holds the mutex.  `cacheOk`:
whenever the writer is not mid-update, the `latest_*` globals describe a
live heap buffer holding exactly one published frame.  `wbuf`/`wptr`/
`wlat`: the writer's fresh buffer is live, disjoint from the old frame,
and `latestPtr` already points at it in the `setPtr` state.  `fresh`:
heap addresses stay below the allocation counter.  `copyOk`: a reader mid-
`memcpy` has copied exactly a prefix of one published frame.  `doneOk`:
a completed snapshot is exactly one published frame. -/
structure Inv (s : MState) : Prop where
  lockW : s.writer ≠ .idle → s.lock = some 0
  lockR1 : ∀ r, s.readers r = .gotLock → s.lock = some (r + 1)
  lockR2 : ∀ r p n i buf, s.readers r = .copying p n i buf → s.lock = some (r + 1)
  cacheOk : (s.writer = .idle ∨ ∃ a f, s.writer = .gotLock a f) →
    ∀ p, s.latestPtr = some p →
      ∃ f, f ∈ s.published ∧ lookupHeap s.heap p = some f ∧ s.latestLen = f.length
  wbuf : ∀ a f, (s.writer = .gotLock a f ∨ s.writer = .freedOld a f ∨
      s.writer = .setPtr a f) →
    lookupHeap s.heap a = some f ∧ f ∈ s.published ∧ a < s.nextAddr
  wptr : ∀ a f, s.writer = .gotLock a f → ∀ p, s.latestPtr = some p → p ≠ a
  wlat : ∀ a f, s.writer = .setPtr a f → s.latestPtr = some a
  fresh : ∀ e ∈ s.heap, e.1 < s.nextAddr
  copyOk : ∀ r p n i buf, s.readers r = .copying p n i buf →
    ∃ f, f ∈ s.published ∧ lookupHeap s.heap p = some f ∧
      n = f.length ∧ i ≤ n ∧ buf = f.take i
  doneOk : ∀ r bs, s.readers r = .done (some bs) → bs ∈ s.published

/-! ## Codec lemmas -/

/-- Recomposing a length from its four big-endian bytes is the identity on
values below `2^32`. -/
theorem parseLen_encodeHdr (n : Nat) (h : n < 2 ^ 32) :
    parseLen (n >>> 24 % 256) (n >>> 16 % 256) (n >>> 8 % 256) (n % 256) = n := by
  unfold parseLen
  have hm : ∀ a : Nat, a % 256 % 256 = a % 256 := fun a => Nat.mod_mod_of_dvd a dvd_rfl
  rw [hm, hm, hm, hm]
  rw [Nat.shiftRight_eq_div_pow, Nat.shiftRight_eq_div_pow, Nat.shiftRight_eq_div_pow]
  rw [Nat.shiftLeft_eq, Nat.shiftLeft_eq, Nat.shiftLeft_eq]
  set x0 := n / 2 ^ 24 % 256 with hx0
  set x1 := n / 2 ^ 16 % 256 with hx1
  set x2 := n / 2 ^ 8 % 256 with hx2
  set x3 := n % 256 with hx3
  have b1 : x1 < 256 := Nat.mod_lt _ (by norm_num)
  have b2 : x2 < 256 := Nat.mod_lt _ (by norm_num)
  have b3 : x3 < 256 := Nat.mod_lt _ (by norm_num)
  have h1 : x0 * 2 ^ 24 ||| x1 * 2 ^ 16 = x0 * 2 ^ 24 + x1 * 2 ^ 16 := by
    rw [show x0 * 2 ^ 24 = 2 ^ 24 * x0 by ring]
    exact (Nat.mul_add_lt_is_or (by omega) x0).symm
  have h2 : x0 * 2 ^ 24 + x1 * 2 ^ 16 ||| x2 * 2 ^ 8
      = x0 * 2 ^ 24 + x1 * 2 ^ 16 + x2 * 2 ^ 8 := by
    rw [show x0 * 2 ^ 24 + x1 * 2 ^ 16 = 2 ^ 16 * (x0 * 2 ^ 8 + x1) by ring]
    rw [show 2 ^ 16 * (x0 * 2 ^ 8 + x1) + x2 * 2 ^ 8
        = 2 ^ 16 * (x0 * 2 ^ 8 + x1) + x2 * 2 ^ 8 from rfl]
    exact (Nat.mul_add_lt_is_or (by omega) (x0 * 2 ^ 8 + x1)).symm
  have h3 : x0 * 2 ^ 24 + x1 * 2 ^ 16 + x2 * 2 ^ 8 ||| x3
      = x0 * 2 ^ 24 + x1 * 2 ^ 16 + x2 * 2 ^ 8 + x3 := by
    rw [show x0 * 2 ^ 24 + x1 * 2 ^ 16 + x2 * 2 ^ 8
        = 2 ^ 8 * (x0 * 2 ^ 16 + x1 * 2 ^ 8 + x2) by ring]
    exact (Nat.mul_add_lt_is_or (by omega) (x0 * 2 ^ 16 + x1 * 2 ^ 8 + x2)).symm
  rw [h1, h2, h3, hx0, hx1, hx2, hx3]
  omega

/-- Reduction of `decodeNext` on a stream with at least a full header. -/
theorem decodeNext_cons (alloc : Nat → Bool) (b0 b1 b2 b3 : Nat) (rest : List Nat) :
    decodeNext alloc (b0 :: b1 :: b2 :: b3 :: rest) =
      (if parseLen b0 b1 b2 b3 = 0 ∨ MAX_FRAME < parseLen b0 b1 b2 b3 then
        (.error .badLength, rest)
      else if alloc (parseLen b0 b1 b2 b3) = false then
        (.error .allocFail, rest)
      else if rest.length < parseLen b0 b1 b2 b3 then
        (.error .shortPayload, rest.drop (parseLen b0 b1 b2 b3))
      else
        (.ok (rest.take (parseLen b0 b1 b2 b3)), rest.drop (parseLen b0 b1 b2 b3))) := rfl

/-- Reduction of `ingestStep` on a stream with at least a full header. -/
theorem ingestStep_cons (lock : Bool) (alloc : Nat → Bool) (st : FrameCache)
    (b0 b1 b2 b3 : Nat) (rest : List Nat) :
    ingestStep lock alloc st (b0 :: b1 :: b2 :: b3 :: rest) =
      (if parseLen b0 b1 b2 b3 = 0 ∨ MAX_FRAME < parseLen b0 b1 b2 b3 then
        (st, rest, false)
      else if alloc (parseLen b0 b1 b2 b3) = false then
        (st, rest, false)
      else if rest.length < parseLen b0 b1 b2 b3 then
        ({ st with
            live := mfree (st.live ++ [(st.nextAddr, rest.take (parseLen b0 b1 b2 b3))])
              st.nextAddr,
            nextAddr := st.nextAddr + 1 },
          rest.drop (parseLen b0 b1 b2 b3), false)
      else
        (publish lock
            { st with
              live := st.live ++ [(st.nextAddr, rest.take (parseLen b0 b1 b2 b3))],
              nextAddr := st.nextAddr + 1 }
            st.nextAddr (parseLen b0 b1 b2 b3),
          rest.drop (parseLen b0 b1 b2 b3), true)) := rfl

/-- C1: encoding a frame of length 1 to 5 MiB (prepending the 4-byte
big-endian length) and feeding the wire bytes to the decoder yields back
exactly the frame's bytes and length, consuming nothing beyond the frame's
wire unit (round-trip of the framed transport codec). -/
theorem feed_codec_roundtrip (alloc : Nat → Bool) (f extra : List Nat)
    (hlen1 : 1 ≤ f.length) (hlen2 : f.length ≤ MAX_FRAME)
    (ha : alloc f.length = true) :
    decodeNext alloc (encode f ++ extra) = (.ok f, extra) := by
  have hMF : MAX_FRAME = 5242880 := rfl
  rw [hMF] at hlen2
  have hlt : f.length < 2 ^ 32 := lt_of_le_of_lt hlen2 (by norm_num)
  have hp := parseLen_encodeHdr f.length hlt
  rw [show encode f ++ extra
      = f.length >>> 24 % 256 :: f.length >>> 16 % 256 :: f.length >>> 8 % 256
        :: f.length % 256 :: (f ++ extra) from rfl]
  rw [decodeNext_cons, hp, hMF]
  rw [if_neg (by omega), if_neg (by simp [ha])]
  rw [if_neg (by simp only [List.length_append]; omega)]
  rw [List.take_left, List.drop_left]

/-- C1 witness: the scenario frame `DE AD BE EF` of length 4 round-trips. -/
theorem feed_codec_roundtrip_witness :
    decodeNext (fun _ => true) (encode [0xDE, 0xAD, 0xBE, 0xEF] ++ []) =
      (.ok [0xDE, 0xAD, 0xBE, 0xEF], []) :=
  feed_codec_roundtrip (fun _ => true) [0xDE, 0xAD, 0xBE, 0xEF] []
    (by decide) (by decide) rfl

/-- C3: a stream whose 4-byte big-endian header parses to `0` or to more
than 5 MiB is rejected as a bad length, the loop `break`s (the connection
is terminated, cache untouched), and nothing beyond the 4 header bytes is
consumed. -/
theorem bad_length_rejected (lock : Bool) (alloc : Nat → Bool) (st : FrameCache)
    (b0 b1 b2 b3 : Nat) (rest : List Nat)
    (h : parseLen b0 b1 b2 b3 = 0 ∨ MAX_FRAME < parseLen b0 b1 b2 b3) :
    decodeNext alloc (b0 :: b1 :: b2 :: b3 :: rest) = (.error .badLength, rest) ∧
    ingestStep lock alloc st (b0 :: b1 :: b2 :: b3 :: rest) = (st, rest, false) := by
  constructor
  · rw [decodeNext_cons, if_pos h]
  · rw [ingestStep_cons, if_pos h]

/-- C3 witness: the zero-length header `[00 00 00 00]` followed by a
payload byte is rejected with only the header consumed. -/
theorem bad_length_rejected_witness :
    decodeNext (fun _ => true) (0 :: 0 :: 0 :: 0 :: [9]) = (.error .badLength, [9]) ∧
    ingestStep true (fun _ => true) initCache (0 :: 0 :: 0 :: 0 :: [9])
      = (initCache, [9], false) :=
  bad_length_rejected true (fun _ => true) initCache 0 0 0 0 [9] (by decide)

/-- C10: the sensor-only secondary writes `DE AD BE EF` with no length
header; the primary parses those four bytes as the header value
`0xDEADBEEF`, which exceeds 5 MiB, so it rejects the frame as a bad
length, closes the feed connection, and never publishes anything from
this producer (the cache is returned unchanged). -/
theorem noCam_payload_rejected (lock : Bool) (alloc : Nat → Bool) (st : FrameCache)
    (rest : List Nat) :
    parseLen 0xDE 0xAD 0xBE 0xEF = 0xDEADBEEF ∧
    MAX_FRAME < 0xDEADBEEF ∧
    decodeNext alloc (noCamPayload ++ rest) = (.error .badLength, rest) ∧
    ingestStep lock alloc st (noCamPayload ++ rest) = (st, rest, false) := by
  have hp : parseLen 0xDE 0xAD 0xBE 0xEF = 0xDEADBEEF := by decide
  have hbig : MAX_FRAME < 0xDEADBEEF := by norm_num [MAX_FRAME]
  refine ⟨hp, hbig, ?_, ?_⟩
  · rw [show noCamPayload ++ rest = 0xDE :: 0xAD :: 0xBE :: 0xEF :: rest from rfl]
    rw [decodeNext_cons, if_pos (Or.inr (hp ▸ hbig))]
  · rw [show noCamPayload ++ rest = 0xDE :: 0xAD :: 0xBE :: 0xEF :: rest from rfl]
    rw [ingestStep_cons, if_pos (Or.inr (hp ▸ hbig))]

/-! ## Heap lemmas -/

/-- Freeing a freshly allocated buffer restores the previous heap. -/
theorem mfree_append_fresh (h : List (Nat × List Nat)) (a : Nat) (f : List Nat)
    (hfresh : ∀ e ∈ h, e.1 ≠ a) : mfree (h ++ [(a, f)]) a = h := by
  unfold mfree
  rw [List.filter_append]
  have h1 : h.filter (fun e => e.1 ≠ a) = h :=
    List.filter_eq_self.mpr (fun e he => decide_eq_true (hfresh e he))
  have h2 : [(a, f)].filter (fun e : Nat × List Nat => e.1 ≠ a) = [] := by simp
  rw [h1, h2, List.append_nil]

/-- A freshly appended buffer is found by lookup. -/
theorem lookupHeap_append_fresh (h : List (Nat × List Nat)) (a : Nat) (f : List Nat)
    (hfresh : ∀ e ∈ h, e.1 ≠ a) : lookupHeap (h ++ [(a, f)]) a = some f := by
  unfold lookupHeap
  have h1 : h.find? (fun e => e.1 = a) = none :=
    List.find?_eq_none.mpr (fun e he => by simpa using hfresh e he)
  rw [List.find?_append, h1]
  simp

/-- Lookup of a buffer present on the left of an append. -/
theorem lookupHeap_append_left (h l : List (Nat × List Nat)) (p : Nat) (f : List Nat)
    (hl : lookupHeap h p = some f) : lookupHeap (h ++ l) p = some f := by
  unfold lookupHeap at *
  cases hfind : h.find? (fun e => e.1 = p) with
  | none => rw [hfind] at hl; simp at hl
  | some e =>
    rw [hfind] at hl
    rw [List.find?_append, hfind]
    simpa using hl

/-- Dropping the entries at address `q` does not change the search for a
different address `p`. -/
theorem find?_filter_ne (t : List (Nat × List Nat)) (p q : Nat) (hne : p ≠ q) :
    (t.filter (fun e => e.1 ≠ q)).find? (fun e => e.1 = p)
      = t.find? (fun e => e.1 = p) := by
  induction t with
  | nil => rfl
  | cons e t ih =>
    rw [List.filter_cons]
    by_cases heq : e.1 = q
    · have hep : ¬(e.1 = p) := by rw [heq]; exact fun hc => hne hc.symm
      rw [if_neg (by simp [heq]), List.find?_cons_of_neg _ (by simp [hep])]
      exact ih
    · rw [if_pos (by simp [heq])]
      by_cases hep : e.1 = p
      · rw [List.find?_cons_of_pos _ (by simp [hep]),
          List.find?_cons_of_pos _ (by simp [hep])]
      · rw [List.find?_cons_of_neg _ (by simp [hep]),
          List.find?_cons_of_neg _ (by simp [hep])]
        exact ih

/-- Freeing one buffer does not change the lookup of a different one. -/
theorem lookupHeap_mfree_ne (h : List (Nat × List Nat)) (p q : Nat) (hne : p ≠ q) :
    lookupHeap (mfree h q) p = lookupHeap h p := by
  unfold lookupHeap mfree
  rw [find?_filter_ne h p q hne]

/-- A successful lookup exhibits the buffer as a heap member. -/
theorem lookupHeap_mem (h : List (Nat × List Nat)) (p : Nat) (f : List Nat)
    (hl : lookupHeap h p = some f) : (p, f) ∈ h := by
  unfold lookupHeap at hl
  cases hfind : h.find? (fun e => e.1 = p) with
  | none => rw [hfind] at hl; simp at hl
  | some e =>
    rw [hfind] at hl
    have hmem := List.mem_of_find?_eq_some hfind
    have hpred : e.1 = p := by simpa using List.find?_some hfind
    have hsnd : e.2 = f := by simpa using hl
    have : e = (p, f) := by
      cases e with
      | mk x y => simp_all
    rwa [this] at hmem

/-! ## Feed ingestion error locality -/

/-- C4: whenever the per-frame ingestion step ends by closing the feed
connection (bad length, short header read, stream closing mid-payload, or
allocation failure), the frame cache is observationally unchanged: same
live buffers, same `latest_frame`, same `latest_len`.  The step function
is total, so the error is confined to the one connection and cannot crash
the relay or touch another connection's state. -/
theorem feed_error_local (lock : Bool) (alloc : Nat → Bool) (st st' : FrameCache)
    (s s' : List Nat) (hwf : wf st)
    (h : ingestStep lock alloc st s = (st', s', false)) :
    cacheObs st' = cacheObs st := by
  have hfresh : ∀ e ∈ st.live, e.1 ≠ st.nextAddr :=
    fun e he => Nat.ne_of_lt (hwf e he)
  rcases s with _ | ⟨b0, _ | ⟨b1, _ | ⟨b2, _ | ⟨b3, rest⟩⟩⟩⟩
  · simp only [ingestStep, Prod.mk.injEq] at h
    rw [← h.1]
  · simp only [ingestStep, Prod.mk.injEq] at h
    rw [← h.1]
  · simp only [ingestStep, Prod.mk.injEq] at h
    rw [← h.1]
  · simp only [ingestStep, Prod.mk.injEq] at h
    rw [← h.1]
  · rw [ingestStep_cons] at h
    split_ifs at h with h1 h2 h3
    · simp only [Prod.mk.injEq] at h
      rw [← h.1]
    · simp only [Prod.mk.injEq] at h
      rw [← h.1]
    · simp only [Prod.mk.injEq] at h
      rw [← h.1]
      simp [cacheObs, mfree_append_fresh st.live st.nextAddr _ hfresh]
    · simp at h

/-- C4 witness: the zero-length header closes the connection and leaves
the boot cache observationally unchanged. -/
theorem feed_error_local_witness : cacheObs initCache = cacheObs initCache :=
  feed_error_local true (fun _ => true) initCache initCache [0, 0, 0, 0] []
    (by intro e he; simp [initCache] at he) (by decide)

/-! ## Snapshot and streaming responder -/

/-- C5: while no frame has ever been published (`latest_frame` is still
`NULL`), a snapshot yields no bytes, and the streaming responder's cycle
paces and retries instead of emitting a part. -/
theorem snapshot_before_publish (lock alloc : Bool) (st : FrameCache)
    (h : st.latest_frame = none) :
    snapshot lock alloc st = none ∧ streamCycle lock alloc st = .wait := by
  have hs : snapshot lock alloc st = none := by
    unfold snapshot
    rw [h]
    cases lock <;> simp
  exact ⟨hs, by unfold streamCycle; rw [hs]⟩

/-- C5 witness: at boot, the snapshot is empty and the responder waits. -/
theorem snapshot_before_publish_witness :
    snapshot true true initCache = none ∧ streamCycle true true initCache = .wait :=
  snapshot_before_publish true true initCache rfl

/-- C7: whenever a cycle of the streaming responder obtains a non-empty
snapshot of `n` bytes, it emits exactly the part header announcing
`Content-Type: image/jpeg` and `Content-Length: n`, then the `n` snapshot
bytes, then the fixed boundary delimiter; the enclosing response is typed
`multipart/x-mixed-replace` with the fixed boundary token. -/
theorem stream_part_framing (lock alloc : Bool) (st : FrameCache) (f : List Nat)
    (hs : snapshot lock alloc st = some f) :
    streamCycle lock alloc st =
      .part (strBytes (streamPartHdr f.length) ++ f ++ strBytes STREAM_BOUNDARY) ∧
    streamPartHdr f.length
      = "Content-Type: image/jpeg\r\nContent-Length: " ++ toString f.length ++ "\r\n\r\n" ∧
    STREAM_CONTENT_TYPE = "multipart/x-mixed-replace;boundary=" ++ PART_BOUNDARY := by
  refine ⟨?_, rfl, rfl⟩
  unfold streamCycle
  rw [hs]

/-- C7 witness: a cache holding the 3-byte frame `[1, 2, 3]` makes the
responder emit the header with `Content-Length: 3`, the 3 bytes, and the
boundary. -/
theorem stream_part_framing_witness :
    streamCycle true true ⟨[(0, [1, 2, 3])], 1, some 0, 3⟩ =
      .part (strBytes (streamPartHdr ([1, 2, 3] : List Nat).length) ++ [1, 2, 3]
        ++ strBytes STREAM_BOUNDARY) ∧
    streamPartHdr ([1, 2, 3] : List Nat).length
      = "Content-Type: image/jpeg\r\nContent-Length: " ++ toString ([1, 2, 3] : List Nat).length
        ++ "\r\n\r\n" ∧
    STREAM_CONTENT_TYPE = "multipart/x-mixed-replace;boundary=" ++ PART_BOUNDARY :=
  stream_part_framing true true ⟨[(0, [1, 2, 3])], 1, some 0, 3⟩ [1, 2, 3] (by decide)

/-! ## Ingestion of a well-formed frame -/

/-- On a well-formed wire unit the ingestion step allocates a fresh
buffer holding the frame and runs the publish section on it, consuming
exactly the unit and continuing the loop. -/
theorem ingestStep_encode (lock : Bool) (alloc : Nat → Bool) (st : FrameCache)
    (f rest : List Nat) (hlen1 : 1 ≤ f.length) (hlen2 : f.length ≤ MAX_FRAME)
    (ha : alloc f.length = true) :
    ingestStep lock alloc st (encode f ++ rest)
      = (publish lock
          { st with live := st.live ++ [(st.nextAddr, f)], nextAddr := st.nextAddr + 1 }
          st.nextAddr f.length, rest, true) := by
  have hMF : MAX_FRAME = 5242880 := rfl
  rw [hMF] at hlen2
  have hlt : f.length < 2 ^ 32 := lt_of_le_of_lt hlen2 (by norm_num)
  have hp := parseLen_encodeHdr f.length hlt
  rw [show encode f ++ rest
      = f.length >>> 24 % 256 :: f.length >>> 16 % 256 :: f.length >>> 8 % 256
        :: f.length % 256 :: (f ++ rest) from rfl]
  rw [ingestStep_cons, hp, hMF]
  rw [if_neg (by omega), if_neg (by simp [ha])]
  rw [if_neg (by simp only [List.length_append]; omega)]
  rw [List.take_left, List.drop_left]

/-- C9: when the feed loop has decoded a fresh frame but the 200 ms wait
on `frameMutex` times out, the new buffer is freed (the live set is
unchanged), the cache keeps its previous frame pointer and length, and
the loop proceeds to the next frame instead of closing the connection. -/
theorem publish_lock_timeout (alloc : Nat → Bool) (st : FrameCache)
    (f rest : List Nat) (hwf : wf st)
    (hlen1 : 1 ≤ f.length) (hlen2 : f.length ≤ MAX_FRAME)
    (ha : alloc f.length = true) :
    ingestStep false alloc st (encode f ++ rest)
      = ({ st with nextAddr := st.nextAddr + 1 }, rest, true) ∧
    cacheObs { st with nextAddr := st.nextAddr + 1 } = cacheObs st := by
  have hfresh : ∀ e ∈ st.live, e.1 ≠ st.nextAddr :=
    fun e he => Nat.ne_of_lt (hwf e he)
  constructor
  · rw [ingestStep_encode false alloc st f rest hlen1 hlen2 ha]
    unfold publish
    simp [mfree_append_fresh st.live st.nextAddr _ hfresh]
  · rfl

/-- C9 witness: a lock timeout while publishing the 1-byte frame `[7]`
into the boot cache discards the frame, leaves the cache observationally
unchanged, and continues the loop. -/
theorem publish_lock_timeout_witness :
    (ingestStep false (fun _ => true) initCache (encode [7] ++ [])
        = ({ initCache with nextAddr := initCache.nextAddr + 1 }, [], true) ∧
      cacheObs { initCache with nextAddr := initCache.nextAddr + 1 }
        = cacheObs initCache) :=
  publish_lock_timeout (fun _ => true) initCache [7] []
    (by intro e he; simp [initCache] at he) (by decide) (by decide) rfl

/-- C2: publishing `f1` and then `f2` from the feed (starting from any
well-formed at-rest cache) leaves a cache whose snapshot is exactly
`f2`'s bytes, whose only live buffer is the one holding `f2` (so at most
one frame's worth of storage is held at rest), and in which `f1`'s buffer
(allocated at the first fresh address) has been freed. -/
theorem cache_overwrite_single_slot (alloc : Nat → Bool) (st : FrameCache)
    (f1 f2 : List Nat) (hwf : wf st) (hrest : atRest st)
    (h11 : 1 ≤ f1.length) (h12 : f1.length ≤ MAX_FRAME)
    (h21 : 1 ≤ f2.length) (h22 : f2.length ≤ MAX_FRAME)
    (ha1 : alloc f1.length = true) (ha2 : alloc f2.length = true) :
    ingestStep true alloc st (encode f1 ++ encode f2)
      = (⟨[(st.nextAddr, f1)], st.nextAddr + 1, some st.nextAddr, f1.length⟩,
          encode f2, true) ∧
    ingestStep true alloc
        ⟨[(st.nextAddr, f1)], st.nextAddr + 1, some st.nextAddr, f1.length⟩ (encode f2)
      = (⟨[(st.nextAddr + 1, f2)], st.nextAddr + 2, some (st.nextAddr + 1), f2.length⟩,
          [], true) ∧
    snapshot true true
        ⟨[(st.nextAddr + 1, f2)], st.nextAddr + 2, some (st.nextAddr + 1), f2.length⟩
      = some f2 ∧
    (∀ g, (st.nextAddr, g) ∉ [(st.nextAddr + 1, f2)]) ∧
    atRest ⟨[(st.nextAddr + 1, f2)], st.nextAddr + 2, some (st.nextAddr + 1), f2.length⟩ := by
  refine ⟨?_, ?_, ?_, ?_, ?_⟩
  · rw [ingestStep_encode true alloc st f1 (encode f2) h11 h12 ha1]
    unfold publish
    rcases hrest with ⟨hn, hl⟩ | ⟨p, g, hp, hl, -⟩
    · simp [hn, hl]
    · have hpa : p ≠ st.nextAddr := by
        have := hwf (p, g) (by rw [hl]; exact List.mem_singleton_self _)
        exact Nat.ne_of_lt this
      simp only [hp, hl, if_true]
      simp [mfree, hpa, Ne.symm hpa]
  · have h2 := ingestStep_encode true alloc
      ⟨[(st.nextAddr, f1)], st.nextAddr + 1, some st.nextAddr, f1.length⟩
      f2 [] h21 h22 ha2
    rw [List.append_nil] at h2
    rw [h2]
    unfold publish
    simp [mfree, show st.nextAddr + 1 ≠ st.nextAddr by omega]
  · unfold snapshot
    have hlk : lookupHeap [(st.nextAddr + 1, f2)] (st.nextAddr + 1) = some f2 := by
      simp [lookupHeap]
    simp [hlk, Nat.lt_of_lt_of_le Nat.zero_lt_one h21]
  · intro g hg
    simp only [List.mem_singleton, Prod.mk.injEq] at hg
    omega
  · exact Or.inr ⟨st.nextAddr + 1, f2, rfl, rfl, rfl⟩

/-- C2 witness: publishing `[1]` then `[2, 3]` into the boot cache leaves
only `[2, 3]` live and snapshottable. -/
theorem cache_overwrite_single_slot_witness :
    ingestStep true (fun _ => true) initCache (encode [1] ++ encode [2, 3])
      = (⟨[(initCache.nextAddr, [1])], initCache.nextAddr + 1, some initCache.nextAddr,
          ([1] : List Nat).length⟩, encode [2, 3], true) ∧
    ingestStep true (fun _ => true)
        ⟨[(initCache.nextAddr, [1])], initCache.nextAddr + 1, some initCache.nextAddr,
          ([1] : List Nat).length⟩ (encode [2, 3])
      = (⟨[(initCache.nextAddr + 1, [2, 3])], initCache.nextAddr + 2,
          some (initCache.nextAddr + 1), ([2, 3] : List Nat).length⟩, [], true) ∧
    snapshot true true
        ⟨[(initCache.nextAddr + 1, [2, 3])], initCache.nextAddr + 2,
          some (initCache.nextAddr + 1), ([2, 3] : List Nat).length⟩
      = some [2, 3] ∧
    (∀ g, (initCache.nextAddr, g) ∉ [(initCache.nextAddr + 1, [2, 3])]) ∧
    atRest ⟨[(initCache.nextAddr + 1, [2, 3])], initCache.nextAddr + 2,
      some (initCache.nextAddr + 1), ([2, 3] : List Nat).length⟩ :=
  cache_overwrite_single_slot (fun _ => true) initCache [1] [2, 3]
    (by intro e he; simp [initCache] at he) (Or.inl ⟨rfl, rfl⟩)
    (by decide) (by decide) (by decide) (by decide) rfl rfl

/-! ## Client slot manager -/

/-- C8: starting from the empty table, `MAX_CLIENTS` (6) live connections
are admitted into slots 0 to 5 in arrival order; the table is then full,
so a seventh simultaneous connection is silently dropped (`none`) and the
table — with the first six still installed and usable — is unchanged: the
`MAX_CLIENTS` bound is a hard admission-control ceiling, not a queue. -/
theorem slot_table_admission (c0 c1 c2 c3 c4 c5 c6 : PeerConn)
    (h0 : c0.connected = true) (h1 : c1.connected = true) (h2 : c2.connected = true)
    (h3 : c3.connected = true) (h4 : c4.connected = true) (h5 : c5.connected = true) :
    acceptAll emptyTable [c0, c1, c2, c3, c4, c5]
      = [some c0, some c1, some c2, some c3, some c4, some c5] ∧
    acceptIfPending [some c0, some c1, some c2, some c3, some c4, some c5] c6
      = (none, [some c0, some c1, some c2, some c3, some c4, some c5]) := by
  constructor
  · show acceptAll [none, none, none, none, none, none] [c0, c1, c2, c3, c4, c5] = _
    simp [acceptAll, acceptIfPending, slotFree, h0, h1, h2, h3, h4, h5]
  · simp [acceptIfPending, slotFree, h0, h1, h2, h3, h4, h5]

/-- C8 witness: seven concrete live connections; the seventh is dropped. -/
theorem slot_table_admission_witness :
    acceptAll emptyTable [⟨0, true⟩, ⟨1, true⟩, ⟨2, true⟩, ⟨3, true⟩, ⟨4, true⟩, ⟨5, true⟩]
      = [some ⟨0, true⟩, some ⟨1, true⟩, some ⟨2, true⟩, some ⟨3, true⟩,
          some ⟨4, true⟩, some ⟨5, true⟩] ∧
    acceptIfPending
        [some ⟨0, true⟩, some ⟨1, true⟩, some ⟨2, true⟩, some ⟨3, true⟩,
          some ⟨4, true⟩, some ⟨5, true⟩] ⟨6, true⟩
      = (none, [some ⟨0, true⟩, some ⟨1, true⟩, some ⟨2, true⟩, some ⟨3, true⟩,
          some ⟨4, true⟩, some ⟨5, true⟩]) :=
  slot_table_admission ⟨0, true⟩ ⟨1, true⟩ ⟨2, true⟩ ⟨3, true⟩ ⟨4, true⟩ ⟨5, true⟩
    ⟨6, true⟩ rfl rfl rfl rfl rfl rfl

/-! ## Mutual exclusion consequences of the invariant -/

/-- The writer inside its critical section excludes any reader from its
own critical section. -/
theorem writer_reader_excl (s : MState) (I : Inv s) (hW : s.writer ≠ .idle) (r : Nat)
    (hR : s.readers r = .gotLock ∨ ∃ p n i buf, s.readers r = .copying p n i buf) :
    False := by
  have h2 := I.lockW hW
  rcases hR with h | ⟨p, n, i, buf, h⟩
  · have h1 := I.lockR1 r h
    rw [h1] at h2
    simp at h2
  · have h1 := I.lockR2 r p n i buf h
    rw [h1] at h2
    simp at h2

/-- Two distinct readers cannot both be inside their critical sections. -/
theorem reader_reader_excl (s : MState) (I : Inv s) (r r' : Nat) (hne : r ≠ r')
    (hR : s.readers r = .gotLock ∨ ∃ p n i buf, s.readers r = .copying p n i buf)
    (hR' : s.readers r' = .gotLock ∨ ∃ p n i buf, s.readers r' = .copying p n i buf) :
    False := by
  have h1 : s.lock = some (r + 1) := by
    rcases hR with h | ⟨p, n, i, buf, h⟩
    · exact I.lockR1 r h
    · exact I.lockR2 r p n i buf h
  have h2 : s.lock = some (r' + 1) := by
    rcases hR' with h | ⟨p, n, i, buf, h⟩
    · exact I.lockR1 r' h
    · exact I.lockR2 r' p n i buf h
  rw [h1] at h2
  simp at h2
  omega

/-- A reader cannot be inside its critical section while the mutex is
free. -/
theorem reader_lock_excl (s : MState) (I : Inv s) (hl : s.lock = none) (r : Nat)
    (hR : s.readers r = .gotLock ∨ ∃ p n i buf, s.readers r = .copying p n i buf) :
    False := by
  have h1 : s.lock = some (r + 1) := by
    rcases hR with h | ⟨p, n, i, buf, h⟩
    · exact I.lockR1 r h
    · exact I.lockR2 r p n i buf h
  rw [hl] at h1
  simp at h1

/-- If a reader holds the mutex, the writer is idle. -/
theorem writer_idle_of_reader (s : MState) (I : Inv s) (r : Nat)
    (hR : s.readers r = .gotLock ∨ ∃ p n i buf, s.readers r = .copying p n i buf) :
    s.writer = .idle := by
  by_cases hw : s.writer = .idle
  · exact hw
  · exact absurd (writer_reader_excl s I hw r hR) (fun h => h)

/-- The invariant holds at boot. -/
theorem inv_init : Inv initMState := by
  refine ⟨?_, ?_, ?_, ?_, ?_, ?_, ?_, ?_, ?_, ?_⟩
  · intro h
    exact absurd rfl h
  · intro r h
    exact absurd h (by simp [initMState])
  · intro r p n i buf h
    exact absurd h (by simp [initMState])
  · intro _ p hp
    exact absurd hp (by simp [initMState])
  · intro a f h
    rcases h with h | h | h <;> exact absurd h (by simp [initMState])
  · intro a f h
    exact absurd h (by simp [initMState])
  · intro a f h
    exact absurd h (by simp [initMState])
  · intro e he
    exact absurd he (by simp [initMState])
  · intro r p n i buf h
    exact absurd h (by simp [initMState])
  · intro r bs h
    exact absurd h (by simp [initMState])

/-- Every machine step preserves the invariant. -/
theorem inv_step (s s' : MState) (I : Inv s) (hstep : MStep s s') : Inv s' := by
  cases hstep with
  | wAcquire f hw hl =>
    have hfresh : ∀ e ∈ s.heap, e.1 ≠ s.nextAddr :=
      fun e he => Nat.ne_of_lt (I.fresh e he)
    refine ⟨?_, ?_, ?_, ?_, ?_, ?_, ?_, ?_, ?_, ?_⟩
    · intro _
      rfl
    · intro r h
      exact Option.noConfusion (hl ▸ I.lockR1 r h)
    · intro r p n i buf h
      exact Option.noConfusion (hl ▸ I.lockR2 r p n i buf h)
    · intro _ p hp
      obtain ⟨g, hg1, hg2, hg3⟩ := I.cacheOk (Or.inl hw) p hp
      exact ⟨g, List.mem_append_left _ hg1, lookupHeap_append_left _ _ _ _ hg2, hg3⟩
    · intro a g hcase
      rcases hcase with hc | hc | hc
      · have hc' : WriterPC.gotLock s.nextAddr f = WriterPC.gotLock a g := hc
        injection hc' with ha hg
        subst ha
        subst hg
        refine ⟨lookupHeap_append_fresh _ _ _ hfresh, ?_, Nat.lt_succ_self _⟩
        exact List.mem_append_right _ (List.mem_singleton_self _)
      · exact WriterPC.noConfusion hc
      · exact WriterPC.noConfusion hc
    · intro a g hc p hp
      have hc' : WriterPC.gotLock s.nextAddr f = WriterPC.gotLock a g := hc
      injection hc' with ha hg
      subst ha
      obtain ⟨gg, -, hg2, -⟩ := I.cacheOk (Or.inl hw) p hp
      have := I.fresh _ (lookupHeap_mem _ _ _ hg2)
      exact Nat.ne_of_lt this
    · intro a g hc
      exact WriterPC.noConfusion hc
    · intro e he
      rcases List.mem_append.mp he with h | h
      · exact Nat.lt_succ_of_lt (I.fresh e h)
      · rw [List.mem_singleton.mp h]
        exact Nat.lt_succ_self _
    · intro r p n i buf h
      exact absurd (reader_lock_excl s I hl r (Or.inr ⟨p, n, i, buf, h⟩)) (fun hc => hc)
    · intro r bs h
      exact List.mem_append_left _ (I.doneOk r bs h)
  | wAcquireFail f hw =>
    have hfresh : ∀ e ∈ s.heap, e.1 ≠ s.nextAddr :=
      fun e he => Nat.ne_of_lt (I.fresh e he)
    have hheap : mfree (s.heap ++ [(s.nextAddr, f)]) s.nextAddr = s.heap :=
      mfree_append_fresh _ _ _ hfresh
    refine ⟨?_, ?_, ?_, ?_, ?_, ?_, ?_, ?_, ?_, ?_⟩
    · exact I.lockW
    · exact I.lockR1
    · exact I.lockR2
    · intro hc p hp
      obtain ⟨g, hg1, hg2, hg3⟩ := I.cacheOk hc p hp
      refine ⟨g, hg1, ?_, hg3⟩
      show lookupHeap (mfree (s.heap ++ [(s.nextAddr, f)]) s.nextAddr) p = some g
      rw [hheap]
      exact hg2
    · intro a g hc
      obtain ⟨h1, h2, h3⟩ := I.wbuf a g hc
      refine ⟨?_, h2, Nat.lt_succ_of_lt h3⟩
      show lookupHeap (mfree (s.heap ++ [(s.nextAddr, f)]) s.nextAddr) a = some g
      rw [hheap]
      exact h1
    · exact I.wptr
    · exact I.wlat
    · intro e he
      have he' : e ∈ s.heap := by
        have hm : e ∈ mfree (s.heap ++ [(s.nextAddr, f)]) s.nextAddr := he
        rwa [hheap] at hm
      exact Nat.lt_succ_of_lt (I.fresh e he')
    · intro r p n i buf h
      obtain ⟨g, hg1, hg2, hg3, hg4, hg5⟩ := I.copyOk r p n i buf h
      refine ⟨g, hg1, ?_, hg3, hg4, hg5⟩
      show lookupHeap (mfree (s.heap ++ [(s.nextAddr, f)]) s.nextAddr) p = some g
      rw [hheap]
      exact hg2
    · exact I.doneOk
  | wFree a f hw =>
    refine ⟨?_, ?_, ?_, ?_, ?_, ?_, ?_, ?_, ?_, ?_⟩
    · intro _
      exact I.lockW (by rw [hw]; exact fun h => WriterPC.noConfusion h)
    · exact I.lockR1
    · exact I.lockR2
    · intro hc
      rcases hc with hc | ⟨a', g', hc⟩
      · exact WriterPC.noConfusion hc
      · exact WriterPC.noConfusion hc
    · intro a' g' hc
      rcases hc with hc | hc | hc
      · exact WriterPC.noConfusion hc
      · have hc' : WriterPC.freedOld a f = WriterPC.freedOld a' g' := hc
        injection hc' with ha hg
        subst ha
        subst hg
        obtain ⟨h1, h2, h3⟩ := I.wbuf a f (Or.inl hw)
        refine ⟨?_, h2, h3⟩
        show lookupHeap (match s.latestPtr with
          | some p => mfree s.heap p
          | none => s.heap) a = some f
        cases hlp : s.latestPtr with
        | none => exact h1
        | some p =>
          rw [lookupHeap_mfree_ne _ _ _ (Ne.symm (I.wptr a f hw p hlp))]
          exact h1
      · exact WriterPC.noConfusion hc
    · intro a' g' hc
      exact WriterPC.noConfusion hc
    · intro a' g' hc
      exact WriterPC.noConfusion hc
    · intro e he
      apply I.fresh e
      have he' : e ∈ (match s.latestPtr with
        | some p => mfree s.heap p
        | none => s.heap) := he
      cases hlp : s.latestPtr with
      | none =>
        rw [hlp] at he'
        exact he'
      | some p =>
        rw [hlp] at he'
        exact List.mem_of_mem_filter he'
    · intro r p n i buf h
      exact absurd (writer_reader_excl s I (by rw [hw]; exact fun hc => WriterPC.noConfusion hc)
        r (Or.inr ⟨p, n, i, buf, h⟩)) (fun hc => hc)
    · exact I.doneOk
  | wSetPtr a f hw =>
    refine ⟨?_, ?_, ?_, ?_, ?_, ?_, ?_, ?_, ?_, ?_⟩
    · intro _
      exact I.lockW (by rw [hw]; exact fun h => WriterPC.noConfusion h)
    · exact I.lockR1
    · exact I.lockR2
    · intro hc
      rcases hc with hc | ⟨a', g', hc⟩
      · exact WriterPC.noConfusion hc
      · exact WriterPC.noConfusion hc
    · intro a' g' hc
      rcases hc with hc | hc | hc
      · exact WriterPC.noConfusion hc
      · exact WriterPC.noConfusion hc
      · have hc' : WriterPC.setPtr a f = WriterPC.setPtr a' g' := hc
        injection hc' with ha hg
        subst ha
        subst hg
        exact I.wbuf a f (Or.inr (Or.inl hw))
    · intro a' g' hc
      exact WriterPC.noConfusion hc
    · intro a' g' hc
      have hc' : WriterPC.setPtr a f = WriterPC.setPtr a' g' := hc
      injection hc' with ha hg
      subst ha
      rfl
    · exact I.fresh
    · exact I.copyOk
    · exact I.doneOk
  | wSetLen a f hw =>
    refine ⟨?_, ?_, ?_, ?_, ?_, ?_, ?_, ?_, ?_, ?_⟩
    · intro h
      exact absurd rfl h
    · intro r h
      exact absurd (writer_reader_excl s I (by rw [hw]; exact fun hc => WriterPC.noConfusion hc)
        r (Or.inl h)) (fun hc => hc)
    · intro r p n i buf h
      exact absurd (writer_reader_excl s I (by rw [hw]; exact fun hc => WriterPC.noConfusion hc)
        r (Or.inr ⟨p, n, i, buf, h⟩)) (fun hc => hc)
    · intro _ p hp
      have hpa : s.latestPtr = some a := I.wlat a f hw
      have hp' : s.latestPtr = some p := hp
      rw [hpa] at hp'
      injection hp' with hp''
      subst hp''
      obtain ⟨h1, h2, -⟩ := I.wbuf a f (Or.inr (Or.inr hw))
      exact ⟨f, h2, h1, rfl⟩
    · intro a' g' hc
      rcases hc with hc | hc | hc <;> exact WriterPC.noConfusion hc
    · intro a' g' hc
      exact WriterPC.noConfusion hc
    · intro a' g' hc
      exact WriterPC.noConfusion hc
    · exact I.fresh
    · exact I.copyOk
    · exact I.doneOk
  | rAcquire r hr hl =>
    refine ⟨?_, ?_, ?_, ?_, ?_, ?_, ?_, ?_, ?_, ?_⟩
    · intro h
      exact Option.noConfusion (hl ▸ I.lockW h)
    · intro r' h
      by_cases hrr : r = r'
      · subst hrr
        rfl
      · have h2 : Function.update s.readers r ReaderPC.gotLock r' = ReaderPC.gotLock := h
        rw [Function.update_noteq (Ne.symm hrr) _ _] at h2
        exact absurd (reader_lock_excl s I hl r' (Or.inl h2)) (fun hc => hc)
    · intro r' p n i buf h
      by_cases hrr : r = r'
      · subst hrr
        rfl
      · have h2 : Function.update s.readers r ReaderPC.gotLock r'
            = ReaderPC.copying p n i buf := h
        rw [Function.update_noteq (Ne.symm hrr) _ _] at h2
        exact absurd (reader_lock_excl s I hl r' (Or.inr ⟨p, n, i, buf, h2⟩)) (fun hc => hc)
    · exact I.cacheOk
    · exact I.wbuf
    · exact I.wptr
    · exact I.wlat
    · exact I.fresh
    · intro r' p n i buf h
      by_cases hrr : r = r'
      · subst hrr
        have h2 : Function.update s.readers r ReaderPC.gotLock r
            = ReaderPC.copying p n i buf := h
        rw [Function.update_same] at h2
        exact ReaderPC.noConfusion h2
      · have h2 : Function.update s.readers r ReaderPC.gotLock r'
            = ReaderPC.copying p n i buf := h
        rw [Function.update_noteq (Ne.symm hrr) _ _] at h2
        exact I.copyOk r' p n i buf h2
    · intro r' bs h
      by_cases hrr : r = r'
      · subst hrr
        have h2 : Function.update s.readers r ReaderPC.gotLock r
            = ReaderPC.done (some bs) := h
        rw [Function.update_same] at h2
        exact ReaderPC.noConfusion h2
      · have h2 : Function.update s.readers r ReaderPC.gotLock r'
            = ReaderPC.done (some bs) := h
        rw [Function.update_noteq (Ne.symm hrr) _ _] at h2
        exact I.doneOk r' bs h2
  | rSnapNone r hr hnone =>
    refine ⟨?_, ?_, ?_, ?_, ?_, ?_, ?_, ?_, ?_, ?_⟩
    · intro h
      exact absurd (writer_reader_excl s I h r (Or.inl hr)) (fun hc => hc)
    · intro r' h
      by_cases hrr : r = r'
      · subst hrr
        have h2 : Function.update s.readers r (ReaderPC.done none) r
            = ReaderPC.gotLock := h
        rw [Function.update_same] at h2
        exact ReaderPC.noConfusion h2
      · have h2 : Function.update s.readers r (ReaderPC.done none) r'
            = ReaderPC.gotLock := h
        rw [Function.update_noteq (Ne.symm hrr) _ _] at h2
        exact absurd (reader_reader_excl s I r r' hrr
          (Or.inl hr) (Or.inl h2)) (fun hc => hc)
    · intro r' p n i buf h
      by_cases hrr : r = r'
      · subst hrr
        have h2 : Function.update s.readers r (ReaderPC.done none) r
            = ReaderPC.copying p n i buf := h
        rw [Function.update_same] at h2
        exact ReaderPC.noConfusion h2
      · have h2 : Function.update s.readers r (ReaderPC.done none) r'
            = ReaderPC.copying p n i buf := h
        rw [Function.update_noteq (Ne.symm hrr) _ _] at h2
        exact absurd (reader_reader_excl s I r r' hrr
          (Or.inl hr) (Or.inr ⟨p, n, i, buf, h2⟩)) (fun hc => hc)
    · exact I.cacheOk
    · exact I.wbuf
    · exact I.wptr
    · exact I.wlat
    · exact I.fresh
    · intro r' p n i buf h
      by_cases hrr : r = r'
      · subst hrr
        have h2 : Function.update s.readers r (ReaderPC.done none) r
            = ReaderPC.copying p n i buf := h
        rw [Function.update_same] at h2
        exact ReaderPC.noConfusion h2
      · have h2 : Function.update s.readers r (ReaderPC.done none) r'
            = ReaderPC.copying p n i buf := h
        rw [Function.update_noteq (Ne.symm hrr) _ _] at h2
        exact I.copyOk r' p n i buf h2
    · intro r' bs h
      by_cases hrr : r = r'
      · subst hrr
        have h2 : Function.update s.readers r (ReaderPC.done none) r
            = ReaderPC.done (some bs) := h
        rw [Function.update_same] at h2
        injection h2 with hres
        exact Option.noConfusion hres
      · have h2 : Function.update s.readers r (ReaderPC.done none) r'
            = ReaderPC.done (some bs) := h
        rw [Function.update_noteq (Ne.symm hrr) _ _] at h2
        exact I.doneOk r' bs h2
  | rSnapAllocFail r p hr hp hlen =>
    refine ⟨?_, ?_, ?_, ?_, ?_, ?_, ?_, ?_, ?_, ?_⟩
    · intro h
      exact absurd (writer_reader_excl s I h r (Or.inl hr)) (fun hc => hc)
    · intro r' h
      by_cases hrr : r = r'
      · subst hrr
        have h2 : Function.update s.readers r (ReaderPC.done none) r
            = ReaderPC.gotLock := h
        rw [Function.update_same] at h2
        exact ReaderPC.noConfusion h2
      · have h2 : Function.update s.readers r (ReaderPC.done none) r'
            = ReaderPC.gotLock := h
        rw [Function.update_noteq (Ne.symm hrr) _ _] at h2
        exact absurd (reader_reader_excl s I r r' hrr
          (Or.inl hr) (Or.inl h2)) (fun hc => hc)
    · intro r' p' n i buf h
      by_cases hrr : r = r'
      · subst hrr
        have h2 : Function.update s.readers r (ReaderPC.done none) r
            = ReaderPC.copying p' n i buf := h
        rw [Function.update_same] at h2
        exact ReaderPC.noConfusion h2
      · have h2 : Function.update s.readers r (ReaderPC.done none) r'
            = ReaderPC.copying p' n i buf := h
        rw [Function.update_noteq (Ne.symm hrr) _ _] at h2
        exact absurd (reader_reader_excl s I r r' hrr
          (Or.inl hr) (Or.inr ⟨p', n, i, buf, h2⟩)) (fun hc => hc)
    · exact I.cacheOk
    · exact I.wbuf
    · exact I.wptr
    · exact I.wlat
    · exact I.fresh
    · intro r' p' n i buf h
      by_cases hrr : r = r'
      · subst hrr
        have h2 : Function.update s.readers r (ReaderPC.done none) r
            = ReaderPC.copying p' n i buf := h
        rw [Function.update_same] at h2
        exact ReaderPC.noConfusion h2
      · have h2 : Function.update s.readers r (ReaderPC.done none) r'
            = ReaderPC.copying p' n i buf := h
        rw [Function.update_noteq (Ne.symm hrr) _ _] at h2
        exact I.copyOk r' p' n i buf h2
    · intro r' bs h
      by_cases hrr : r = r'
      · subst hrr
        have h2 : Function.update s.readers r (ReaderPC.done none) r
            = ReaderPC.done (some bs) := h
        rw [Function.update_same] at h2
        injection h2 with hres
        exact Option.noConfusion hres
      · have h2 : Function.update s.readers r (ReaderPC.done none) r'
            = ReaderPC.done (some bs) := h
        rw [Function.update_noteq (Ne.symm hrr) _ _] at h2
        exact I.doneOk r' bs h2
  | rStartCopy r p hr hp hlen =>
    refine ⟨?_, ?_, ?_, ?_, ?_, ?_, ?_, ?_, ?_, ?_⟩
    · exact I.lockW
    · intro r' h
      by_cases hrr : r = r'
      · subst hrr
        have h2 : Function.update s.readers r (ReaderPC.copying p s.latestLen 0 []) r
            = ReaderPC.gotLock := h
        rw [Function.update_same] at h2
        exact ReaderPC.noConfusion h2
      · have h2 : Function.update s.readers r (ReaderPC.copying p s.latestLen 0 []) r'
            = ReaderPC.gotLock := h
        rw [Function.update_noteq (Ne.symm hrr) _ _] at h2
        exact I.lockR1 r' h2
    · intro r' p' n i buf h
      by_cases hrr : r = r'
      · subst hrr
        exact I.lockR1 r hr
      · have h2 : Function.update s.readers r (ReaderPC.copying p s.latestLen 0 []) r'
            = ReaderPC.copying p' n i buf := h
        rw [Function.update_noteq (Ne.symm hrr) _ _] at h2
        exact I.lockR2 r' p' n i buf h2
    · exact I.cacheOk
    · exact I.wbuf
    · exact I.wptr
    · exact I.wlat
    · exact I.fresh
    · intro r' p' n i buf h
      by_cases hrr : r = r'
      · subst hrr
        have h2 : Function.update s.readers r (ReaderPC.copying p s.latestLen 0 []) r
            = ReaderPC.copying p' n i buf := h
        rw [Function.update_same] at h2
        injection h2 with h1 h2' h3 h4
        subst h1
        subst h2'
        subst h3
        subst h4
        have hwid : s.writer = .idle := writer_idle_of_reader s I r (Or.inl hr)
        obtain ⟨g, hg1, hg2, hg3⟩ := I.cacheOk (Or.inl hwid) p hp
        exact ⟨g, hg1, hg2, hg3, Nat.zero_le _, rfl⟩
      · have h2 : Function.update s.readers r (ReaderPC.copying p s.latestLen 0 []) r'
            = ReaderPC.copying p' n i buf := h
        rw [Function.update_noteq (Ne.symm hrr) _ _] at h2
        exact I.copyOk r' p' n i buf h2
    · intro r' bs h
      by_cases hrr : r = r'
      · subst hrr
        have h2 : Function.update s.readers r (ReaderPC.copying p s.latestLen 0 []) r
            = ReaderPC.done (some bs) := h
        rw [Function.update_same] at h2
        exact ReaderPC.noConfusion h2
      · have h2 : Function.update s.readers r (ReaderPC.copying p s.latestLen 0 []) r'
            = ReaderPC.done (some bs) := h
        rw [Function.update_noteq (Ne.symm hrr) _ _] at h2
        exact I.doneOk r' bs h2
  | rCopyByte r p n i buf hrc hi =>
    refine ⟨?_, ?_, ?_, ?_, ?_, ?_, ?_, ?_, ?_, ?_⟩
    · exact I.lockW
    · intro r' h
      by_cases hrr : r = r'
      · subst hrr
        have h2 : Function.update s.readers r
            (ReaderPC.copying p n (i + 1) (buf ++ [heapByte s.heap p i])) r
            = ReaderPC.gotLock := h
        rw [Function.update_same] at h2
        exact ReaderPC.noConfusion h2
      · have h2 : Function.update s.readers r
            (ReaderPC.copying p n (i + 1) (buf ++ [heapByte s.heap p i])) r'
            = ReaderPC.gotLock := h
        rw [Function.update_noteq (Ne.symm hrr) _ _] at h2
        exact I.lockR1 r' h2
    · intro r' p' n' i' buf' h
      by_cases hrr : r = r'
      · subst hrr
        exact I.lockR2 r p n i buf hrc
      · have h2 : Function.update s.readers r
            (ReaderPC.copying p n (i + 1) (buf ++ [heapByte s.heap p i])) r'
            = ReaderPC.copying p' n' i' buf' := h
        rw [Function.update_noteq (Ne.symm hrr) _ _] at h2
        exact I.lockR2 r' p' n' i' buf' h2
    · exact I.cacheOk
    · exact I.wbuf
    · exact I.wptr
    · exact I.wlat
    · exact I.fresh
    · intro r' p' n' i' buf' h
      by_cases hrr : r = r'
      · subst hrr
        have h2 : Function.update s.readers r
            (ReaderPC.copying p n (i + 1) (buf ++ [heapByte s.heap p i])) r
            = ReaderPC.copying p' n' i' buf' := h
        rw [Function.update_same] at h2
        injection h2 with h1 h2' h3 h4
        subst h1
        subst h2'
        subst h3
        subst h4
        obtain ⟨g, hg1, hg2, hg3, hg4, hg5⟩ := I.copyOk r p n i buf hrc
        refine ⟨g, hg1, hg2, hg3, by omega, ?_⟩
        have hig : i < g.length := by omega
        have hb : heapByte s.heap p i = g.getD i 0 := by
          unfold heapByte
          rw [hg2]
          rfl
        rw [hg5, hb]
        rw [List.getD_eq_getElem?_getD, List.getElem?_eq_getElem hig]
        rw [List.take_succ, List.getElem?_eq_getElem hig]
        rfl
      · have h2 : Function.update s.readers r
            (ReaderPC.copying p n (i + 1) (buf ++ [heapByte s.heap p i])) r'
            = ReaderPC.copying p' n' i' buf' := h
        rw [Function.update_noteq (Ne.symm hrr) _ _] at h2
        exact I.copyOk r' p' n' i' buf' h2
    · intro r' bs h
      by_cases hrr : r = r'
      · subst hrr
        have h2 : Function.update s.readers r
            (ReaderPC.copying p n (i + 1) (buf ++ [heapByte s.heap p i])) r
            = ReaderPC.done (some bs) := h
        rw [Function.update_same] at h2
        exact ReaderPC.noConfusion h2
      · have h2 : Function.update s.readers r
            (ReaderPC.copying p n (i + 1) (buf ++ [heapByte s.heap p i])) r'
            = ReaderPC.done (some bs) := h
        rw [Function.update_noteq (Ne.symm hrr) _ _] at h2
        exact I.doneOk r' bs h2
  | rFinish r p n buf hrc =>
    refine ⟨?_, ?_, ?_, ?_, ?_, ?_, ?_, ?_, ?_, ?_⟩
    · intro h
      exact absurd (writer_reader_excl s I h r (Or.inr ⟨p, n, n, buf, hrc⟩)) (fun hc => hc)
    · intro r' h
      by_cases hrr : r = r'
      · subst hrr
        have h2 : Function.update s.readers r (ReaderPC.done (some buf)) r
            = ReaderPC.gotLock := h
        rw [Function.update_same] at h2
        exact ReaderPC.noConfusion h2
      · have h2 : Function.update s.readers r (ReaderPC.done (some buf)) r'
            = ReaderPC.gotLock := h
        rw [Function.update_noteq (Ne.symm hrr) _ _] at h2
        exact absurd (reader_reader_excl s I r r' hrr
          (Or.inr ⟨p, n, n, buf, hrc⟩) (Or.inl h2)) (fun hc => hc)
    · intro r' p' n' i' buf' h
      by_cases hrr : r = r'
      · subst hrr
        have h2 : Function.update s.readers r (ReaderPC.done (some buf)) r
            = ReaderPC.copying p' n' i' buf' := h
        rw [Function.update_same] at h2
        exact ReaderPC.noConfusion h2
      · have h2 : Function.update s.readers r (ReaderPC.done (some buf)) r'
            = ReaderPC.copying p' n' i' buf' := h
        rw [Function.update_noteq (Ne.symm hrr) _ _] at h2
        exact absurd (reader_reader_excl s I r r' hrr
          (Or.inr ⟨p, n, n, buf, hrc⟩) (Or.inr ⟨p', n', i', buf', h2⟩)) (fun hc => hc)
    · exact I.cacheOk
    · exact I.wbuf
    · exact I.wptr
    · exact I.wlat
    · exact I.fresh
    · intro r' p' n' i' buf' h
      by_cases hrr : r = r'
      · subst hrr
        have h2 : Function.update s.readers r (ReaderPC.done (some buf)) r
            = ReaderPC.copying p' n' i' buf' := h
        rw [Function.update_same] at h2
        exact ReaderPC.noConfusion h2
      · have h2 : Function.update s.readers r (ReaderPC.done (some buf)) r'
            = ReaderPC.copying p' n' i' buf' := h
        rw [Function.update_noteq (Ne.symm hrr) _ _] at h2
        exact I.copyOk r' p' n' i' buf' h2
    · intro r' bs h
      by_cases hrr : r = r'
      · subst hrr
        have h2 : Function.update s.readers r (ReaderPC.done (some buf)) r
            = ReaderPC.done (some bs) := h
        rw [Function.update_same] at h2
        injection h2 with hres
        injection hres with hbs
        obtain ⟨g, hg1, -, hg3, -, hg5⟩ := I.copyOk r p n n buf hrc
        have hbg : buf = g := by
          rw [hg5, hg3, List.take_length]
        rw [← hbs, hbg]
        exact hg1
      · have h2 : Function.update s.readers r (ReaderPC.done (some buf)) r'
            = ReaderPC.done (some bs) := h
        rw [Function.update_noteq (Ne.symm hrr) _ _] at h2
        exact I.doneOk r' bs h2

/-- The invariant holds in every reachable state. -/
theorem inv_reach (s : MState) (h : Reach s) : Inv s := by
  unfold Reach at h
  induction h with
  | refl => exact inv_init
  | tail hab hbc ih => exact inv_step _ _ ih hbc

/-- C6: in every reachable interleaving of the feed writer's publishes
with any number of concurrent streaming readers, a completed snapshot is
byte-for-byte one of the frames handed to the publish section — never a
mix of two different published frames, and never a partially written
frame. -/
theorem no_torn_snapshot (s : MState) (hreach : Reach s) (r : Nat) (bs : List Nat)
    (hdone : s.readers r = .done (some bs)) : bs ∈ s.published :=
  (inv_reach s hreach).doneOk r bs hdone

/-- C6 witness: a concrete execution in which the writer publishes the
frame `[7]` and reader 0 then snapshots it; the completed snapshot is the
published frame. -/
theorem no_torn_snapshot_witness :
    [7] ∈ (MState.mk none [(0, [7])] 1 (some 0) 1 WriterPC.idle
      (Function.update (Function.update (Function.update (Function.update
        (fun _ => ReaderPC.idle) 0 ReaderPC.gotLock) 0 (ReaderPC.copying 0 1 0 []))
        0 (ReaderPC.copying 0 1 1 [7])) 0 (ReaderPC.done (some [7]))) [[7]]).published := by
  refine no_torn_snapshot _ ?_ 0 [7] rfl
  exact Relation.ReflTransGen.tail (Relation.ReflTransGen.tail (Relation.ReflTransGen.tail
    (Relation.ReflTransGen.tail (Relation.ReflTransGen.tail (Relation.ReflTransGen.tail
    (Relation.ReflTransGen.tail (Relation.ReflTransGen.tail Relation.ReflTransGen.refl
      (MStep.wAcquire initMState [7] rfl rfl))
      (MStep.wFree ⟨some 0, [(0, [7])], 1, none, 0, WriterPC.gotLock 0 [7],
        fun _ => ReaderPC.idle, [[7]]⟩ 0 [7] rfl))
      (MStep.wSetPtr ⟨some 0, [(0, [7])], 1, none, 0, WriterPC.freedOld 0 [7],
        fun _ => ReaderPC.idle, [[7]]⟩ 0 [7] rfl))
      (MStep.wSetLen ⟨some 0, [(0, [7])], 1, some 0, 0, WriterPC.setPtr 0 [7],
        fun _ => ReaderPC.idle, [[7]]⟩ 0 [7] rfl))
      (MStep.rAcquire ⟨none, [(0, [7])], 1, some 0, 1, WriterPC.idle,
        fun _ => ReaderPC.idle, [[7]]⟩ 0 rfl rfl))
      (MStep.rStartCopy ⟨some 1, [(0, [7])], 1, some 0, 1, WriterPC.idle,
        Function.update (fun _ => ReaderPC.idle) 0 ReaderPC.gotLock, [[7]]⟩ 0 0
        rfl rfl (by decide)))
      (MStep.rCopyByte ⟨some 1, [(0, [7])], 1, some 0, 1, WriterPC.idle,
        Function.update (Function.update (fun _ => ReaderPC.idle) 0 ReaderPC.gotLock)
          0 (ReaderPC.copying 0 1 0 []), [[7]]⟩ 0 0 1 0 [] rfl (by decide)))
      (MStep.rFinish ⟨some 1, [(0, [7])], 1, some 0, 1, WriterPC.idle,
        Function.update (Function.update (Function.update (fun _ => ReaderPC.idle)
          0 ReaderPC.gotLock) 0 (ReaderPC.copying 0 1 0 []))
          0 (ReaderPC.copying 0 1 1 [7]), [[7]]⟩ 0 0 1 [7] rfl)

end Relay
